import Mathlib

/-!
Verification development for the function-registration subsystem
(`src/func/register.rs`): a shallow embedding of the dynamic-value argument
extractors (`by_ref`, `by_value`), the constant-safety guard
(`check_constant!`), the uniform closures produced by the four
`RegisterNativeFunction` impls of the `def_register!` macro (each under the
`Pure` and `Method` calling conventions), and the registration metadata
(`param_types`, `param_names`, `return_type`, `return_type_name`).

Modelling conventions:
* Machine values carried inside a `Dynamic` are modelled by the inductive
  `DynValue`; the dynamic container's internal representation is an external
  collaborator, so only the observable interface (type tag, read-only flag,
  text fast path) is modelled.  Shared/locked values do not occur in this
  model, so `flatten_in_place` is the identity on it.
* Rust type identities (`TypeId`) are modelled by the syntactic type tokens
  `Ty`; `Ty.resultOf t` stands for `RhaiResultOf<T> = Result<T, Box<EvalAltResult>>`.
* A Rust panic (`expect`, `cast` failure) is modelled by the
  `Extracted.panic` outcome; a returned `Err` is an `Except.error`.
* A native function taking `&mut A` as first parameter is modelled as
  returning, alongside its result, the final value of that first parameter
  (the write-back performed when the `DynamicWriteLock` is dropped).
-/

namespace Rhai

/-- Calling convention of a registered function: `CallableFunction::Pure`
or `CallableFunction::Method` (the `$abi` parameter of `def_register!`). -/
inductive ABI
| Pure
| Method
deriving DecidableEq, Repr

/-- Type Identity: model of `std::any::TypeId` as a syntactic type token.
`strRef` is `&str`, `string` is `String`, `imString` is `ImmutableString`,
`other n` covers any further concrete type, and `resultOf t` is
`RhaiResultOf<T>` (the fallible return wrapper). -/
inductive Ty
| unit
| bool
| int
| strRef
| string
| imString
| other (n : Nat)
| resultOf (t : Ty)
deriving DecidableEq, Repr

/-- Rust type name, as produced by `std::any::type_name` (used by the
`param_names` / `return_type_name` metadata). -/
def Ty.typeName : Ty → String
| .unit => "()"
| .bool => "bool"
| .int => "i64"
| .strRef => "&str"
| .string => "alloc::string::String"
| .imString => "rhai::ImmutableString"
| .other n => "other_" ++ toString n
| .resultOf t => "Result<" ++ t.typeName ++ ", Box<EvalAltResult>>"

/-- A concrete value stored inside a `Dynamic` container.  `vStr` is the
built-in text type (`ImmutableString`). -/
inductive DynValue
| vUnit
| vBool (b : Bool)
| vInt (i : Int)
| vStr (s : String)
| vOther (n : Nat) (payload : Nat)
deriving DecidableEq, Repr

/-- Runtime type tag of a stored value (what `TypeId` comparison against the
contents of a `Dynamic` observes). -/
def DynValue.typeOf : DynValue → Ty
| .vUnit => .unit
| .vBool _ => .bool
| .vInt _ => .int
| .vStr _ => .imString
| .vOther n _ => .other n

/-- Model of `Dynamic`: one concrete value plus the read-only (constant)
access mode flag. -/
structure Dynamic where
  value : DynValue
  readOnly : Bool
deriving DecidableEq, Repr

/-- `Dynamic::UNIT`, which is also `Dynamic::default()`: the canonical empty
placeholder left behind by `mem::take`. It is read-write. -/
def Dynamic.UNIT : Dynamic := ⟨DynValue.vUnit, false⟩

/-- `Dynamic::from(r)`: wrap a concrete value back into a fresh (read-write)
dynamic container. -/
def Dynamic.fromValue (v : DynValue) : Dynamic := ⟨v, false⟩

/-- Source position attached to an error; `Position.none` is `Position::NONE`. -/
inductive Position
| none
| pos (line : Nat) (col : Nat)
deriving DecidableEq, Repr

/-- Model of `EvalAltResult` (boxed rhai error).  The guard produces
`ErrorNonPureMethodCallOnConstant`; `native c p` stands for any other error a
native function may itself return on its fallible path. -/
inductive RhaiError
| ErrorNonPureMethodCallOnConstant (fnName : String) (p : Position)
| native (code : Nat) (p : Position)
deriving DecidableEq, Repr

/-- The slice of `NativeCallContext` that this subsystem consumes: the
declared call name (`ctx.fn_name()`). -/
structure NativeCallContext where
  fnName : String
deriving DecidableEq, Repr

/-- Modelled from the spec: reserved call-name constant of the surrounding
engine (`crate::engine::FN_IDX_SET`, not under `src/`) identifying
index-assignment calls. -/
def FN_IDX_SET : String := "index$set$"

/-- Modelled from the spec: reserved call-name prefix of the surrounding
engine (`crate::engine::FN_SET`, not under `src/`) identifying
property-setter calls. -/
def FN_SET : String := "set$"

/-- Message of the `expect` on `_drain.next()` (`EXPECT_ARGS`). -/
def EXPECT_ARGS : String := "arguments"

/-- Outcome of an operation that either produces a value or panics (Rust
`expect` / `Dynamic::cast` failure).  A panic aborts the call; it is not a
returned error. -/
inductive Extracted (α : Type)
| ok (a : α)
| panic (msg : String)
deriving DecidableEq, Repr

/-- `by_ref::<T>`: dereference a slot into a `DynamicWriteLock<T>`.
`data.write_lock::<T>()` succeeds exactly when the stored value has type `T`;
the `.expect("checked")` panics otherwise.  The lock exposes the current
value; the slot itself is left in place (write-back happens at lock drop). -/
def by_ref (T : Ty) (data : Dynamic) : Extracted DynValue :=
  if data.value.typeOf = T then .ok data.value else .panic "checked"

/-- `by_value::<T>`: dereference a slot into a value.  Special text paths:
target `&str` normalizes in place (`flatten_in_place`, identity here) and
returns a borrowed view, leaving the slot untouched; target `String` takes
the backing text storage out (`mem::take(data).into_string()`), leaving
`Dynamic::UNIT`.  Every other target does `mem::take(data).cast::<T>()`,
leaving `Dynamic::UNIT` and panicking on a runtime type mismatch.
The result pairs the extracted value with the slot's state afterwards. -/
def by_value (T : Ty) (data : Dynamic) : Extracted (DynValue × Dynamic) :=
  if T = Ty.strRef then
    match data.value with
    | .vStr s => .ok (.vStr s, data)
    | _ => .panic "&str"
  else if T = Ty.string then
    match data.value with
    | .vStr s => .ok (.vStr s, Dynamic.UNIT)
    | _ => .panic "ImmutableString"
  else
    if data.value.typeOf = T then .ok (data.value, Dynamic.UNIT)
    else .panic "cast"

/-- Sequential by-value extraction of the parameters, mirroring
`let mut _drain = args.iter_mut(); let p = by_value(_drain.next().expect(EXPECT_ARGS));`
repeated once per parameter type, left to right.  Produces the extracted
values together with the state of every argument slot afterwards (slots
beyond the arity are untouched); an exhausted iterator panics with
`EXPECT_ARGS`. -/
def extractValues : List Ty → List Dynamic → Extracted (List DynValue × List Dynamic)
| [], rest => .ok ([], rest)
| _ :: _, [] => .panic EXPECT_ARGS
| t :: ts, d :: ds =>
  match by_value t d with
  | .panic m => .panic m
  | .ok (v, d1) =>
    match extractValues ts ds with
    | .panic m => .panic m
    | .ok (vs, ds1) => .ok (v :: vs, d1 :: ds1)

/-- The `check_constant!` macro: under the `Method` ABI with a non-empty
argument array, deny (with `ErrorNonPureMethodCallOnConstant` carrying the
call name and `Position::NONE`) exactly an index-assignment call of 3
arguments on a read-only receiver, or a property-setter-prefixed call of 2
arguments on a read-only receiver.  Everything else, and every `Pure` call,
passes silently.  Returns the error to be propagated, if any. -/
def check_constant (abi : ABI) (ctx : NativeCallContext) (args : List Dynamic) :
    Option RhaiError :=
  match abi, args with
  | ABI.Method, a0 :: rest =>
    let deny : Bool :=
      if (a0 :: rest).length = 3 then
        (ctx.fnName == FN_IDX_SET) && a0.readOnly
      else if (a0 :: rest).length = 2 then
        ctx.fnName.startsWith FN_SET && a0.readOnly
      else false
    if deny then
      some (RhaiError.ErrorNonPureMethodCallOnConstant ctx.fnName Position.none)
    else none
  | _, _ => none

/-! ### The uniform closures

`into_callable_function` wraps a native function into the uniform shape
`(NativeCallContext, &mut FnCallArgs) -> RhaiResult`.  There are four
`RegisterNativeFunction` impls — {no context, context} x {infallible,
fallible} — each instantiated by `def_register!` under both ABIs.

Native function shapes (after type erasure into the model):
* `Pure`, plain:       `List DynValue → DynValue`
* `Pure`, fallible:    `List DynValue → Except RhaiError DynValue`
* `Method`, plain:     `List DynValue → DynValue × DynValue` — the first
  component is the final value of the `&mut` receiver, the second is the
  return value.
* `Method`, fallible:  `List DynValue → DynValue × Except RhaiError DynValue`
  (the receiver is written back whether or not the call errs).
Context-taking variants additionally receive the `NativeCallContext`.

Each closure returns the `RhaiResult` paired with the state of the argument
array after the call, or panics. -/

/-- Uniform closure for a `Pure`, no-context, infallible native function. -/
def into_callable_function_Pure_plain (tys : List Ty)
    (f : List DynValue → DynValue)
    (ctx : NativeCallContext) (args : List Dynamic) :
    Extracted (Except RhaiError Dynamic × List Dynamic) :=
  match check_constant ABI.Pure ctx args with
  | some e => .ok (.error e, args)
  | none =>
    match extractValues tys args with
    | .panic m => .panic m
    | .ok (vs, args1) => .ok (.ok (Dynamic.fromValue (f vs)), args1)

/-- Uniform closure for a `Pure`, context-taking, infallible native function. -/
def into_callable_function_Pure_ctx (tys : List Ty)
    (f : NativeCallContext → List DynValue → DynValue)
    (ctx : NativeCallContext) (args : List Dynamic) :
    Extracted (Except RhaiError Dynamic × List Dynamic) :=
  match check_constant ABI.Pure ctx args with
  | some e => .ok (.error e, args)
  | none =>
    match extractValues tys args with
    | .panic m => .panic m
    | .ok (vs, args1) => .ok (.ok (Dynamic.fromValue (f ctx vs)), args1)

/-- Uniform closure for a `Pure`, no-context, fallible native function:
`self(args).map(Dynamic::from)`. -/
def into_callable_function_Pure_fallible (tys : List Ty)
    (f : List DynValue → Except RhaiError DynValue)
    (ctx : NativeCallContext) (args : List Dynamic) :
    Extracted (Except RhaiError Dynamic × List Dynamic) :=
  match check_constant ABI.Pure ctx args with
  | some e => .ok (.error e, args)
  | none =>
    match extractValues tys args with
    | .panic m => .panic m
    | .ok (vs, args1) => .ok ((f vs).map Dynamic.fromValue, args1)

/-- Uniform closure for a `Pure`, context-taking, fallible native function. -/
def into_callable_function_Pure_ctx_fallible (tys : List Ty)
    (f : NativeCallContext → List DynValue → Except RhaiError DynValue)
    (ctx : NativeCallContext) (args : List Dynamic) :
    Extracted (Except RhaiError Dynamic × List Dynamic) :=
  match check_constant ABI.Pure ctx args with
  | some e => .ok (.error e, args)
  | none =>
    match extractValues tys args with
    | .panic m => .panic m
    | .ok (vs, args1) => .ok ((f ctx vs).map Dynamic.fromValue, args1)

/-- Uniform closure for a `Method`, no-context, infallible native function:
the first parameter is extracted with `by_ref`, the rest with `by_value`;
the receiver slot is written back (flag preserved) when the lock drops.
The `Method` instantiation exists only for arity 1 or more (see
`def_register_variants`); the empty-type-list case is out of the macro's
image and is mapped to the drained-iterator panic. -/
def into_callable_function_Method_plain (tys : List Ty)
    (f : List DynValue → DynValue × DynValue)
    (ctx : NativeCallContext) (args : List Dynamic) :
    Extracted (Except RhaiError Dynamic × List Dynamic) :=
  match check_constant ABI.Method ctx args with
  | some e => .ok (.error e, args)
  | none =>
    match tys, args with
    | t0 :: ts, d0 :: ds =>
      match by_ref t0 d0 with
      | .panic m => .panic m
      | .ok v0 =>
        match extractValues ts ds with
        | .panic m => .panic m
        | .ok (vs, ds1) =>
          let out := f (v0 :: vs)
          .ok (.ok (Dynamic.fromValue out.2), ⟨out.1, d0.readOnly⟩ :: ds1)
    | _, _ => .panic EXPECT_ARGS

/-- Uniform closure for a `Method`, context-taking, infallible native
function. -/
def into_callable_function_Method_ctx (tys : List Ty)
    (f : NativeCallContext → List DynValue → DynValue × DynValue)
    (ctx : NativeCallContext) (args : List Dynamic) :
    Extracted (Except RhaiError Dynamic × List Dynamic) :=
  match check_constant ABI.Method ctx args with
  | some e => .ok (.error e, args)
  | none =>
    match tys, args with
    | t0 :: ts, d0 :: ds =>
      match by_ref t0 d0 with
      | .panic m => .panic m
      | .ok v0 =>
        match extractValues ts ds with
        | .panic m => .panic m
        | .ok (vs, ds1) =>
          let out := f ctx (v0 :: vs)
          .ok (.ok (Dynamic.fromValue out.2), ⟨out.1, d0.readOnly⟩ :: ds1)
    | _, _ => .panic EXPECT_ARGS

/-- Uniform closure for a `Method`, no-context, fallible native function:
the receiver write-back happens whether the native call errs or not. -/
def into_callable_function_Method_fallible (tys : List Ty)
    (f : List DynValue → DynValue × Except RhaiError DynValue)
    (ctx : NativeCallContext) (args : List Dynamic) :
    Extracted (Except RhaiError Dynamic × List Dynamic) :=
  match check_constant ABI.Method ctx args with
  | some e => .ok (.error e, args)
  | none =>
    match tys, args with
    | t0 :: ts, d0 :: ds =>
      match by_ref t0 d0 with
      | .panic m => .panic m
      | .ok v0 =>
        match extractValues ts ds with
        | .panic m => .panic m
        | .ok (vs, ds1) =>
          let out := f (v0 :: vs)
          .ok (out.2.map Dynamic.fromValue, ⟨out.1, d0.readOnly⟩ :: ds1)
    | _, _ => .panic EXPECT_ARGS

/-- Uniform closure for a `Method`, context-taking, fallible native
function. -/
def into_callable_function_Method_ctx_fallible (tys : List Ty)
    (f : NativeCallContext → List DynValue → DynValue × Except RhaiError DynValue)
    (ctx : NativeCallContext) (args : List Dynamic) :
    Extracted (Except RhaiError Dynamic × List Dynamic) :=
  match check_constant ABI.Method ctx args with
  | some e => .ok (.error e, args)
  | none =>
    match tys, args with
    | t0 :: ts, d0 :: ds =>
      match by_ref t0 d0 with
      | .panic m => .panic m
      | .ok v0 =>
        match extractValues ts ds with
        | .panic m => .panic m
        | .ok (vs, ds1) =>
          let out := f ctx (v0 :: vs)
          .ok (out.2.map Dynamic.fromValue, ⟨out.1, d0.readOnly⟩ :: ds1)
    | _, _ => .panic EXPECT_ARGS

/-! ### Registration metadata -/

/-- Parameter marker, the `$mark` of `def_register!`: a plain value type `A`
or the marker `Mut<A>` standing for `&mut A`. -/
inductive Marker
| plain (t : Ty)
| mutRef (t : Ty)
deriving DecidableEq, Repr

/-- The `$par` generic type behind a marker — `param_types` is built from
`TypeId::of::<$par>()`, which strips the `Mut` marker. -/
def Marker.parTy : Marker → Ty
| .plain t => t
| .mutRef t => t

/-- The declared parameter type `$param` as named by
`std::any::type_name::<$param>()` — this one does show the `&mut`. -/
def Marker.paramTypeName : Marker → String
| .plain t => t.typeName
| .mutRef t => "&mut " ++ t.typeName

/-- Metadata exposed by one `RegisterNativeFunction` impl. -/
structure FnMetadata where
  param_types : List Ty
  param_names : List String
  return_type : Ty
  return_type_name : String
deriving DecidableEq, Repr

/-- Metadata of the two infallible impls (`RESULT = ()` and
`RESULT = NativeCallContext`): `return_type` is `TypeId::of::<RET>()`. -/
def metadata_infallible (markers : List Marker) (ret : Ty) : FnMetadata :=
  { param_types := markers.map Marker.parTy
  , param_names := markers.map Marker.paramTypeName
  , return_type := ret
  , return_type_name := ret.typeName }

/-- Metadata of the two fallible impls (`RESULT = RhaiResultOf<()>` and
`RESULT = RhaiResultOf<NativeCallContext>`): `return_type` is
`TypeId::of::<RhaiResultOf<RET>>()` and `return_type_name` names the wrapper
too. -/
def metadata_fallible (markers : List Marker) (ret : Ty) : FnMetadata :=
  { param_types := markers.map Marker.parTy
  , param_names := markers.map Marker.paramTypeName
  , return_type := Ty.resultOf ret
  , return_type_name := (Ty.resultOf ret).typeName }

/-- Markers generated by `def_register!` for the `Pure` instantiation:
every parameter is a plain value type. -/
def pureMarkers (tys : List Ty) : List Marker := tys.map Marker.plain

/-- Markers generated by `def_register!` for the `Method` instantiation:
`Mut<A>` for the first parameter, plain value types for the rest (the
`Method` line is only ever expanded with at least one parameter). -/
def methodMarkers : List Ty → List Marker
| [] => []
| t :: ts => Marker.mutRef t :: ts.map Marker.plain

/-- The (ABI, arity) pairs generated by the recursion of `def_register!`:
each expansion step with `n+1` parameter names emits a `Pure` and a `Method`
instantiation of arity `n+1` and recurses on the tail; the base case emits
the lone `Pure` instantiation of arity 0. -/
def def_register_variants : Nat → List (ABI × Nat)
| 0 => [(ABI.Pure, 0)]
| n + 1 => (ABI.Pure, n + 1) :: (ABI.Method, n + 1) :: def_register_variants n

/-- The top-level `def_register!(A, B, ..., V)` call supplies 20 parameter
names. -/
def registeredVariants : List (ABI × Nat) := def_register_variants 20

/-! ### Basic lemmas about the extractors and the guard -/

/-- The guard has no effect on `Pure` calls. -/
theorem check_constant_Pure (ctx : NativeCallContext) (args : List Dynamic) :
    check_constant ABI.Pure ctx args = none := by
  cases args <;> rfl

/-- Characterization of a successful `by_value`: the extracted value is the
slot's stored value, and afterwards the slot is `Dynamic::UNIT` — except on
the borrowed-text (`&str`) path, where the slot is left in place. -/
theorem by_value_ok_spec (T : Ty) (d : Dynamic) (v : DynValue) (d1 : Dynamic)
    (h : by_value T d = Extracted.ok (v, d1)) :
    v = d.value ∧ d1 = (if T = Ty.strRef then d else Dynamic.UNIT) := by
  obtain ⟨dv, ro⟩ := d
  by_cases h1 : T = Ty.strRef
  · subst h1
    cases dv <;> simp_all [by_value]
    simp [← h.1, ← h.2]
  · by_cases h2 : T = Ty.string
    · subst h2; cases dv <;> simp_all [by_value]
    · simp only [by_value, if_neg h1, if_neg h2] at h
      by_cases h3 : DynValue.typeOf dv = T
      · simp [h3] at h
        exact ⟨h.1.symm, by simp [if_neg h1, h.2.symm]⟩
      · simp [h3] at h

/-- Whether `by_value::<T>` accepts the stored value: the text targets
(`&str`, `String`) accept exactly an `ImmutableString` slot, every other
target accepts exactly a slot whose runtime type is `T`. -/
def by_value_accepts (T : Ty) (v : DynValue) : Bool :=
  if T = Ty.strRef || T = Ty.string then
    match v with
    | .vStr _ => true
    | _ => false
  else v.typeOf == T

/-- On a rejected value, `by_value` panics (models the `expect` / `cast`
aborts); it has no error-return channel. -/
theorem by_value_panic_of_mismatch (T : Ty) (d : Dynamic)
    (h : by_value_accepts T d.value = false) :
    ∃ m, by_value T d = Extracted.panic m := by
  obtain ⟨dv, ro⟩ := d
  by_cases h1 : T = Ty.strRef
  · subst h1; cases dv <;> simp_all [by_value, by_value_accepts]
  · by_cases h2 : T = Ty.string
    · subst h2; cases dv <;> simp_all [by_value, by_value_accepts]
    · simp only [by_value_accepts, h1, h2] at h
      simp only [by_value, if_neg h1, if_neg h2]
      have h3 : ¬ DynValue.typeOf dv = T := by
        intro hc
        simp [hc] at h
      simp [h3]

/-- On a type mismatch, `by_ref` panics (the `expect("checked")`). -/
theorem by_ref_panic_of_mismatch (T : Ty) (d : Dynamic)
    (h : d.value.typeOf ≠ T) :
    ∃ m, by_ref T d = Extracted.panic m := by
  simp [by_ref, h]

/-- Successful `by_ref` exposes exactly the stored value and requires the
types to agree. -/
theorem by_ref_ok_spec (T : Ty) (d : Dynamic) (v : DynValue)
    (h : by_ref T d = Extracted.ok v) :
    v = d.value ∧ d.value.typeOf = T := by
  by_cases h1 : d.value.typeOf = T <;> simp_all [by_ref]

/-- Length bookkeeping for a successful sequential extraction. -/
theorem extractValues_length (tys : List Ty) : ∀ (args : List Dynamic) vs slots,
    extractValues tys args = Extracted.ok (vs, slots) →
    vs.length = tys.length ∧ slots.length = args.length ∧ tys.length ≤ args.length := by
  induction tys with
  | nil =>
    intro args vs slots h
    simp only [extractValues] at h
    simp only [Extracted.ok.injEq, Prod.mk.injEq] at h
    simp [← h.1, ← h.2]
  | cons t ts ih =>
    intro args vs slots h
    cases args with
    | nil => simp [extractValues] at h
    | cons d ds =>
      simp only [extractValues] at h
      cases hbv : by_value t d with
      | panic m => rw [hbv] at h; simp at h
      | ok p =>
        obtain ⟨v, d1⟩ := p
        rw [hbv] at h
        cases hre : extractValues ts ds with
        | panic m => rw [hre] at h; simp at h
        | ok q =>
          obtain ⟨vs1, ds1⟩ := q
          rw [hre] at h
          simp only [Extracted.ok.injEq, Prod.mk.injEq] at h
          obtain ⟨hv, hs⟩ := h
          have hrec := ih ds vs1 ds1 hre
          subst hv hs
          simp [hrec.1, hrec.2.1]
          omega

/-- Index-wise characterization of sequential extraction: the value and the
final slot at position `i` are produced by one `by_value` application to the
declared type and the argument at position `i` — extraction is left-to-right
by index, with no reordering or reuse across positions. -/
theorem extractValues_getD (tys : List Ty) : ∀ (args : List Dynamic) vs slots,
    extractValues tys args = Extracted.ok (vs, slots) →
    ∀ i, i < tys.length →
      by_value (tys.getD i Ty.unit) (args.getD i Dynamic.UNIT)
        = Extracted.ok (vs.getD i DynValue.vUnit, slots.getD i Dynamic.UNIT) := by
  induction tys with
  | nil => intro args vs slots h i hi; simp at hi
  | cons t ts ih =>
    intro args vs slots h i hi
    cases args with
    | nil => simp [extractValues] at h
    | cons d ds =>
      simp only [extractValues] at h
      cases hbv : by_value t d with
      | panic m => rw [hbv] at h; simp at h
      | ok p =>
        obtain ⟨v, d1⟩ := p
        rw [hbv] at h
        cases hre : extractValues ts ds with
        | panic m => rw [hre] at h; simp at h
        | ok q =>
          obtain ⟨vs1, ds1⟩ := q
          rw [hre] at h
          simp only [Extracted.ok.injEq, Prod.mk.injEq] at h
          obtain ⟨hv, hs⟩ := h
          subst hv hs
          cases i with
          | zero => simpa using hbv
          | succ n =>
            simp only [List.getD_cons_succ]
            exact ih ds vs1 ds1 hre n (by simpa using hi)

/-- Slot-state formula for a successful sequential extraction: every
consumed slot is left as `Dynamic::UNIT` except those targeted as borrowed
text (`&str`), which keep their value; slots beyond the arity are
untouched. -/
theorem extractValues_slots (tys : List Ty) : ∀ (args : List Dynamic) vs slots,
    extractValues tys args = Extracted.ok (vs, slots) →
    slots = List.zipWith (fun t d => if t = Ty.strRef then d else Dynamic.UNIT) tys args
              ++ args.drop tys.length := by
  induction tys with
  | nil =>
    intro args vs slots h
    simp only [extractValues] at h
    simp only [Extracted.ok.injEq, Prod.mk.injEq] at h
    simp [← h.2]
  | cons t ts ih =>
    intro args vs slots h
    cases args with
    | nil => simp [extractValues] at h
    | cons d ds =>
      simp only [extractValues] at h
      cases hbv : by_value t d with
      | panic m => rw [hbv] at h; simp at h
      | ok p =>
        obtain ⟨v, d1⟩ := p
        rw [hbv] at h
        cases hre : extractValues ts ds with
        | panic m => rw [hre] at h; simp at h
        | ok q =>
          obtain ⟨vs1, ds1⟩ := q
          rw [hre] at h
          simp only [Extracted.ok.injEq, Prod.mk.injEq] at h
          obtain ⟨hv, hs⟩ := h
          subst hv hs
          have hd1 := (by_value_ok_spec t d v d1 hbv).2
          simp [List.zipWith, ih ds vs1 ds1 hre, hd1]

/-! ### Evaluation equations for the eight uniform closures -/

/-- A `Pure` plain closure on a successfully extracted argument array is a
single application of the native function to the extracted values. -/
theorem Pure_plain_eq (tys : List Ty) (f : List DynValue → DynValue)
    (ctx : NativeCallContext) (args : List Dynamic) (vs : List DynValue)
    (slots : List Dynamic)
    (h : extractValues tys args = Extracted.ok (vs, slots)) :
    into_callable_function_Pure_plain tys f ctx args
      = Extracted.ok (Except.ok (Dynamic.fromValue (f vs)), slots) := by
  simp [into_callable_function_Pure_plain, check_constant_Pure, h]

/-- Same for the context-taking `Pure` plain closure: the context is passed
as the leading argument. -/
theorem Pure_ctx_eq (tys : List Ty)
    (f : NativeCallContext → List DynValue → DynValue)
    (ctx : NativeCallContext) (args : List Dynamic) (vs : List DynValue)
    (slots : List Dynamic)
    (h : extractValues tys args = Extracted.ok (vs, slots)) :
    into_callable_function_Pure_ctx tys f ctx args
      = Extracted.ok (Except.ok (Dynamic.fromValue (f ctx vs)), slots) := by
  simp [into_callable_function_Pure_ctx, check_constant_Pure, h]

/-- A `Pure` fallible closure maps one native result through
`Dynamic::from`, leaving an error untouched. -/
theorem Pure_fallible_eq (tys : List Ty)
    (f : List DynValue → Except RhaiError DynValue)
    (ctx : NativeCallContext) (args : List Dynamic) (vs : List DynValue)
    (slots : List Dynamic)
    (h : extractValues tys args = Extracted.ok (vs, slots)) :
    into_callable_function_Pure_fallible tys f ctx args
      = Extracted.ok ((f vs).map Dynamic.fromValue, slots) := by
  simp [into_callable_function_Pure_fallible, check_constant_Pure, h]

/-- Same for the context-taking `Pure` fallible closure. -/
theorem Pure_ctx_fallible_eq (tys : List Ty)
    (f : NativeCallContext → List DynValue → Except RhaiError DynValue)
    (ctx : NativeCallContext) (args : List Dynamic) (vs : List DynValue)
    (slots : List Dynamic)
    (h : extractValues tys args = Extracted.ok (vs, slots)) :
    into_callable_function_Pure_ctx_fallible tys f ctx args
      = Extracted.ok ((f ctx vs).map Dynamic.fromValue, slots) := by
  simp [into_callable_function_Pure_ctx_fallible, check_constant_Pure, h]

/-- A `Method` plain closure past the guard: the receiver is taken by
reference, the remaining parameters by value, the native function is applied
once, and its receiver write-back lands in slot 0 (access flag preserved). -/
theorem Method_plain_eq (t0 : Ty) (ts : List Ty)
    (f : List DynValue → DynValue × DynValue)
    (ctx : NativeCallContext) (d0 : Dynamic) (ds : List Dynamic)
    (v0 : DynValue) (vs : List DynValue) (slots : List Dynamic)
    (hc : check_constant ABI.Method ctx (d0 :: ds) = none)
    (hr : by_ref t0 d0 = Extracted.ok v0)
    (he : extractValues ts ds = Extracted.ok (vs, slots)) :
    into_callable_function_Method_plain (t0 :: ts) f ctx (d0 :: ds)
      = Extracted.ok (Except.ok (Dynamic.fromValue (f (v0 :: vs)).2),
          ⟨(f (v0 :: vs)).1, d0.readOnly⟩ :: slots) := by
  simp [into_callable_function_Method_plain, hc, hr, he]

/-- Same for the context-taking `Method` plain closure. -/
theorem Method_ctx_eq (t0 : Ty) (ts : List Ty)
    (f : NativeCallContext → List DynValue → DynValue × DynValue)
    (ctx : NativeCallContext) (d0 : Dynamic) (ds : List Dynamic)
    (v0 : DynValue) (vs : List DynValue) (slots : List Dynamic)
    (hc : check_constant ABI.Method ctx (d0 :: ds) = none)
    (hr : by_ref t0 d0 = Extracted.ok v0)
    (he : extractValues ts ds = Extracted.ok (vs, slots)) :
    into_callable_function_Method_ctx (t0 :: ts) f ctx (d0 :: ds)
      = Extracted.ok (Except.ok (Dynamic.fromValue (f ctx (v0 :: vs)).2),
          ⟨(f ctx (v0 :: vs)).1, d0.readOnly⟩ :: slots) := by
  simp [into_callable_function_Method_ctx, hc, hr, he]

/-- A `Method` fallible closure past the guard: one native application; the
result is mapped through `Dynamic::from` (errors untouched) and the receiver
write-back happens either way. -/
theorem Method_fallible_eq (t0 : Ty) (ts : List Ty)
    (f : List DynValue → DynValue × Except RhaiError DynValue)
    (ctx : NativeCallContext) (d0 : Dynamic) (ds : List Dynamic)
    (v0 : DynValue) (vs : List DynValue) (slots : List Dynamic)
    (hc : check_constant ABI.Method ctx (d0 :: ds) = none)
    (hr : by_ref t0 d0 = Extracted.ok v0)
    (he : extractValues ts ds = Extracted.ok (vs, slots)) :
    into_callable_function_Method_fallible (t0 :: ts) f ctx (d0 :: ds)
      = Extracted.ok ((f (v0 :: vs)).2.map Dynamic.fromValue,
          ⟨(f (v0 :: vs)).1, d0.readOnly⟩ :: slots) := by
  simp [into_callable_function_Method_fallible, hc, hr, he]

/-- Same for the context-taking `Method` fallible closure. -/
theorem Method_ctx_fallible_eq (t0 : Ty) (ts : List Ty)
    (f : NativeCallContext → List DynValue → DynValue × Except RhaiError DynValue)
    (ctx : NativeCallContext) (d0 : Dynamic) (ds : List Dynamic)
    (v0 : DynValue) (vs : List DynValue) (slots : List Dynamic)
    (hc : check_constant ABI.Method ctx (d0 :: ds) = none)
    (hr : by_ref t0 d0 = Extracted.ok v0)
    (he : extractValues ts ds = Extracted.ok (vs, slots)) :
    into_callable_function_Method_ctx_fallible (t0 :: ts) f ctx (d0 :: ds)
      = Extracted.ok ((f ctx (v0 :: vs)).2.map Dynamic.fromValue,
          ⟨(f ctx (v0 :: vs)).1, d0.readOnly⟩ :: slots) := by
  simp [into_callable_function_Method_ctx_fallible, hc, hr, he]

/-! ### Guard rejection and error provenance -/

/-- A guard-rejected `Method` plain call returns the guard's error with the
argument array untouched, independently of the native function. -/
theorem Method_plain_reject (tys : List Ty) (f : List DynValue → DynValue × DynValue)
    (ctx : NativeCallContext) (args : List Dynamic) (e : RhaiError)
    (hc : check_constant ABI.Method ctx args = some e) :
    into_callable_function_Method_plain tys f ctx args
      = Extracted.ok (Except.error e, args) := by
  simp [into_callable_function_Method_plain, hc]

/-- Guard rejection for the context-taking `Method` plain closure. -/
theorem Method_ctx_reject (tys : List Ty)
    (f : NativeCallContext → List DynValue → DynValue × DynValue)
    (ctx : NativeCallContext) (args : List Dynamic) (e : RhaiError)
    (hc : check_constant ABI.Method ctx args = some e) :
    into_callable_function_Method_ctx tys f ctx args
      = Extracted.ok (Except.error e, args) := by
  simp [into_callable_function_Method_ctx, hc]

/-- Guard rejection for the `Method` fallible closure. -/
theorem Method_fallible_reject (tys : List Ty)
    (f : List DynValue → DynValue × Except RhaiError DynValue)
    (ctx : NativeCallContext) (args : List Dynamic) (e : RhaiError)
    (hc : check_constant ABI.Method ctx args = some e) :
    into_callable_function_Method_fallible tys f ctx args
      = Extracted.ok (Except.error e, args) := by
  simp [into_callable_function_Method_fallible, hc]

/-- Guard rejection for the context-taking `Method` fallible closure. -/
theorem Method_ctx_fallible_reject (tys : List Ty)
    (f : NativeCallContext → List DynValue → DynValue × Except RhaiError DynValue)
    (ctx : NativeCallContext) (args : List Dynamic) (e : RhaiError)
    (hc : check_constant ABI.Method ctx args = some e) :
    into_callable_function_Method_ctx_fallible tys f ctx args
      = Extracted.ok (Except.error e, args) := by
  simp [into_callable_function_Method_ctx_fallible, hc]

/-- An infallible `Pure` closure never returns an error at all (its guard
never fires and its native function has no error channel). -/
theorem Pure_plain_no_error (tys : List Ty) (f : List DynValue → DynValue)
    (ctx : NativeCallContext) (args : List Dynamic) (e : RhaiError)
    (slots : List Dynamic)
    (h : into_callable_function_Pure_plain tys f ctx args
          = Extracted.ok (Except.error e, slots)) : False := by
  simp only [into_callable_function_Pure_plain, check_constant_Pure] at h
  cases hre : extractValues tys args with
  | panic m => rw [hre] at h; simp at h
  | ok p => obtain ⟨vs, slots1⟩ := p; rw [hre] at h; simp at h

/-- Same for the context-taking infallible `Pure` closure. -/
theorem Pure_ctx_no_error (tys : List Ty)
    (f : NativeCallContext → List DynValue → DynValue)
    (ctx : NativeCallContext) (args : List Dynamic) (e : RhaiError)
    (slots : List Dynamic)
    (h : into_callable_function_Pure_ctx tys f ctx args
          = Extracted.ok (Except.error e, slots)) : False := by
  simp only [into_callable_function_Pure_ctx, check_constant_Pure] at h
  cases hre : extractValues tys args with
  | panic m => rw [hre] at h; simp at h
  | ok p => obtain ⟨vs, slots1⟩ := p; rw [hre] at h; simp at h

/-- An error returned by an infallible `Method` closure can only be the
guard's, with the argument array untouched. -/
theorem Method_plain_error_spec (tys : List Ty)
    (f : List DynValue → DynValue × DynValue)
    (ctx : NativeCallContext) (args : List Dynamic) (e : RhaiError)
    (slots : List Dynamic)
    (h : into_callable_function_Method_plain tys f ctx args
          = Extracted.ok (Except.error e, slots)) :
    check_constant ABI.Method ctx args = some e ∧ slots = args := by
  simp only [into_callable_function_Method_plain] at h
  cases hc : check_constant ABI.Method ctx args with
  | some e1 =>
    rw [hc] at h
    simp at h
    exact ⟨by rw [h.1], h.2.symm⟩
  | none =>
    rw [hc] at h
    exfalso
    cases tys with
    | nil => simp at h
    | cons t0 ts =>
      cases args with
      | nil => simp at h
      | cons d0 ds =>
        simp only at h
        cases hr : by_ref t0 d0 with
        | panic m => rw [hr] at h; simp at h
        | ok v0 =>
          rw [hr] at h
          cases hre : extractValues ts ds with
          | panic m => rw [hre] at h; simp at h
          | ok q => obtain ⟨vs, ds1⟩ := q; rw [hre] at h; simp at h

/-- Same for the context-taking infallible `Method` closure. -/
theorem Method_ctx_error_spec (tys : List Ty)
    (f : NativeCallContext → List DynValue → DynValue × DynValue)
    (ctx : NativeCallContext) (args : List Dynamic) (e : RhaiError)
    (slots : List Dynamic)
    (h : into_callable_function_Method_ctx tys f ctx args
          = Extracted.ok (Except.error e, slots)) :
    check_constant ABI.Method ctx args = some e ∧ slots = args := by
  simp only [into_callable_function_Method_ctx] at h
  cases hc : check_constant ABI.Method ctx args with
  | some e1 =>
    rw [hc] at h
    simp at h
    exact ⟨by rw [h.1], h.2.symm⟩
  | none =>
    rw [hc] at h
    exfalso
    cases tys with
    | nil => simp at h
    | cons t0 ts =>
      cases args with
      | nil => simp at h
      | cons d0 ds =>
        simp only at h
        cases hr : by_ref t0 d0 with
        | panic m => rw [hr] at h; simp at h
        | ok v0 =>
          rw [hr] at h
          cases hre : extractValues ts ds with
          | panic m => rw [hre] at h; simp at h
          | ok q => obtain ⟨vs, ds1⟩ := q; rw [hre] at h; simp at h

/-- An error returned by a `Pure` fallible closure comes from exactly one
native application to the extracted values (the guard never fires). -/
theorem Pure_fallible_error_spec (tys : List Ty)
    (f : List DynValue → Except RhaiError DynValue)
    (ctx : NativeCallContext) (args : List Dynamic) (e : RhaiError)
    (slots : List Dynamic)
    (h : into_callable_function_Pure_fallible tys f ctx args
          = Extracted.ok (Except.error e, slots)) :
    ∃ vs, extractValues tys args = Extracted.ok (vs, slots) ∧ f vs = Except.error e := by
  simp only [into_callable_function_Pure_fallible, check_constant_Pure] at h
  cases hre : extractValues tys args with
  | panic m => rw [hre] at h; simp at h
  | ok p =>
    obtain ⟨vs, slots1⟩ := p
    rw [hre] at h
    simp only [Extracted.ok.injEq, Prod.mk.injEq] at h
    cases hf : f vs with
    | error e1 =>
      rw [hf] at h
      simp [Except.map] at h
      rw [h.1] at hf
      exact ⟨vs, by rw [h.2], hf⟩
    | ok r => rw [hf] at h; simp [Except.map] at h

/-- Same for the context-taking `Pure` fallible closure. -/
theorem Pure_ctx_fallible_error_spec (tys : List Ty)
    (f : NativeCallContext → List DynValue → Except RhaiError DynValue)
    (ctx : NativeCallContext) (args : List Dynamic) (e : RhaiError)
    (slots : List Dynamic)
    (h : into_callable_function_Pure_ctx_fallible tys f ctx args
          = Extracted.ok (Except.error e, slots)) :
    ∃ vs, extractValues tys args = Extracted.ok (vs, slots) ∧ f ctx vs = Except.error e := by
  simp only [into_callable_function_Pure_ctx_fallible, check_constant_Pure] at h
  cases hre : extractValues tys args with
  | panic m => rw [hre] at h; simp at h
  | ok p =>
    obtain ⟨vs, slots1⟩ := p
    rw [hre] at h
    simp only [Extracted.ok.injEq, Prod.mk.injEq] at h
    cases hf : f ctx vs with
    | error e1 =>
      rw [hf] at h
      simp [Except.map] at h
      rw [h.1] at hf
      exact ⟨vs, by rw [h.2], hf⟩
    | ok r => rw [hf] at h; simp [Except.map] at h

/-- An error returned by a `Method` fallible closure is either the guard's
(argument array untouched) or the native function's own, produced by exactly
one application to the extracted values, with the receiver write-back
performed regardless. -/
theorem Method_fallible_error_spec (tys : List Ty)
    (f : List DynValue → DynValue × Except RhaiError DynValue)
    (ctx : NativeCallContext) (args : List Dynamic) (e : RhaiError)
    (slots : List Dynamic)
    (h : into_callable_function_Method_fallible tys f ctx args
          = Extracted.ok (Except.error e, slots)) :
    (check_constant ABI.Method ctx args = some e ∧ slots = args) ∨
    (check_constant ABI.Method ctx args = none ∧
      ∃ t0 ts d0 ds v0 vs slots1,
        tys = t0 :: ts ∧ args = d0 :: ds ∧
        by_ref t0 d0 = Extracted.ok v0 ∧
        extractValues ts ds = Extracted.ok (vs, slots1) ∧
        (f (v0 :: vs)).2 = Except.error e ∧
        slots = ⟨(f (v0 :: vs)).1, d0.readOnly⟩ :: slots1) := by
  simp only [into_callable_function_Method_fallible] at h
  cases hc : check_constant ABI.Method ctx args with
  | some e1 =>
    rw [hc] at h
    simp at h
    exact Or.inl ⟨by rw [h.1], h.2.symm⟩
  | none =>
    rw [hc] at h
    refine Or.inr ⟨rfl, ?_⟩
    cases tys with
    | nil => simp at h
    | cons t0 ts =>
      cases args with
      | nil => simp at h
      | cons d0 ds =>
        simp only at h
        cases hr : by_ref t0 d0 with
        | panic m => rw [hr] at h; simp at h
        | ok v0 =>
          rw [hr] at h
          cases hre : extractValues ts ds with
          | panic m => rw [hre] at h; simp at h
          | ok q =>
            obtain ⟨vs, ds1⟩ := q
            rw [hre] at h
            simp only [Extracted.ok.injEq, Prod.mk.injEq] at h
            cases hf : (f (v0 :: vs)).2 with
            | error e1 =>
              rw [hf] at h
              simp [Except.map] at h
              exact ⟨t0, ts, d0, ds, v0, vs, ds1, rfl, rfl, hr, hre,
                by rw [hf, h.1], h.2.symm⟩
            | ok r => rw [hf] at h; simp [Except.map] at h

/-- Same for the context-taking `Method` fallible closure. -/
theorem Method_ctx_fallible_error_spec (tys : List Ty)
    (f : NativeCallContext → List DynValue → DynValue × Except RhaiError DynValue)
    (ctx : NativeCallContext) (args : List Dynamic) (e : RhaiError)
    (slots : List Dynamic)
    (h : into_callable_function_Method_ctx_fallible tys f ctx args
          = Extracted.ok (Except.error e, slots)) :
    (check_constant ABI.Method ctx args = some e ∧ slots = args) ∨
    (check_constant ABI.Method ctx args = none ∧
      ∃ t0 ts d0 ds v0 vs slots1,
        tys = t0 :: ts ∧ args = d0 :: ds ∧
        by_ref t0 d0 = Extracted.ok v0 ∧
        extractValues ts ds = Extracted.ok (vs, slots1) ∧
        (f ctx (v0 :: vs)).2 = Except.error e ∧
        slots = ⟨(f ctx (v0 :: vs)).1, d0.readOnly⟩ :: slots1) := by
  simp only [into_callable_function_Method_ctx_fallible] at h
  cases hc : check_constant ABI.Method ctx args with
  | some e1 =>
    rw [hc] at h
    simp at h
    exact Or.inl ⟨by rw [h.1], h.2.symm⟩
  | none =>
    rw [hc] at h
    refine Or.inr ⟨rfl, ?_⟩
    cases tys with
    | nil => simp at h
    | cons t0 ts =>
      cases args with
      | nil => simp at h
      | cons d0 ds =>
        simp only at h
        cases hr : by_ref t0 d0 with
        | panic m => rw [hr] at h; simp at h
        | ok v0 =>
          rw [hr] at h
          cases hre : extractValues ts ds with
          | panic m => rw [hre] at h; simp at h
          | ok q =>
            obtain ⟨vs, ds1⟩ := q
            rw [hre] at h
            simp only [Extracted.ok.injEq, Prod.mk.injEq] at h
            cases hf : (f ctx (v0 :: vs)).2 with
            | error e1 =>
              rw [hf] at h
              simp [Except.map] at h
              exact ⟨t0, ts, d0, ds, v0, vs, ds1, rfl, rfl, hr, hre,
                by rw [hf, h.1], h.2.symm⟩
            | ok r => rw [hf] at h; simp [Except.map] at h

/-! ### Remaining helper lemmas for the claims -/

/-- No type is equal to its own `RhaiResultOf` wrapper. -/
theorem resultOf_ne (t : Ty) : Ty.resultOf t ≠ t := by
  induction t <;> intro h <;> simp_all

/-- Stripping `parTy` off plain markers recovers the underlying types. -/
theorem parTy_map_plain (ts : List Ty) :
    (ts.map Marker.plain).map Marker.parTy = ts := by
  induction ts <;> simp_all [Marker.parTy]

/-- Composed form of `parTy_map_plain`, convenient for `simp`. -/
theorem parTy_comp_plain_map (ts : List Ty) :
    List.map (Marker.parTy ∘ Marker.plain) ts = ts := by
  induction ts <;> simp_all [Marker.parTy]

/-- A successful infallible `Pure` plain call determines a successful
extraction with the same final slots. -/
theorem Pure_plain_ok_extract (tys : List Ty) (f : List DynValue → DynValue)
    (ctx : NativeCallContext) (args : List Dynamic)
    (r : Except RhaiError Dynamic) (slots : List Dynamic)
    (h : into_callable_function_Pure_plain tys f ctx args = Extracted.ok (r, slots)) :
    ∃ vs, extractValues tys args = Extracted.ok (vs, slots) := by
  simp only [into_callable_function_Pure_plain, check_constant_Pure] at h
  cases hre : extractValues tys args with
  | panic m => rw [hre] at h; simp at h
  | ok p =>
    obtain ⟨vs, slots1⟩ := p
    rw [hre] at h
    simp only [Extracted.ok.injEq, Prod.mk.injEq] at h
    exact ⟨vs, by rw [h.2]⟩

/-- Same for the context-taking `Pure` plain closure. -/
theorem Pure_ctx_ok_extract (tys : List Ty)
    (f : NativeCallContext → List DynValue → DynValue)
    (ctx : NativeCallContext) (args : List Dynamic)
    (r : Except RhaiError Dynamic) (slots : List Dynamic)
    (h : into_callable_function_Pure_ctx tys f ctx args = Extracted.ok (r, slots)) :
    ∃ vs, extractValues tys args = Extracted.ok (vs, slots) := by
  simp only [into_callable_function_Pure_ctx, check_constant_Pure] at h
  cases hre : extractValues tys args with
  | panic m => rw [hre] at h; simp at h
  | ok p =>
    obtain ⟨vs, slots1⟩ := p
    rw [hre] at h
    simp only [Extracted.ok.injEq, Prod.mk.injEq] at h
    exact ⟨vs, by rw [h.2]⟩

/-- Same for the `Pure` fallible closure. -/
theorem Pure_fallible_ok_extract (tys : List Ty)
    (f : List DynValue → Except RhaiError DynValue)
    (ctx : NativeCallContext) (args : List Dynamic)
    (r : Except RhaiError Dynamic) (slots : List Dynamic)
    (h : into_callable_function_Pure_fallible tys f ctx args = Extracted.ok (r, slots)) :
    ∃ vs, extractValues tys args = Extracted.ok (vs, slots) := by
  simp only [into_callable_function_Pure_fallible, check_constant_Pure] at h
  cases hre : extractValues tys args with
  | panic m => rw [hre] at h; simp at h
  | ok p =>
    obtain ⟨vs, slots1⟩ := p
    rw [hre] at h
    simp only [Extracted.ok.injEq, Prod.mk.injEq] at h
    exact ⟨vs, by rw [h.2]⟩

/-- Same for the context-taking `Pure` fallible closure. -/
theorem Pure_ctx_fallible_ok_extract (tys : List Ty)
    (f : NativeCallContext → List DynValue → Except RhaiError DynValue)
    (ctx : NativeCallContext) (args : List Dynamic)
    (r : Except RhaiError Dynamic) (slots : List Dynamic)
    (h : into_callable_function_Pure_ctx_fallible tys f ctx args = Extracted.ok (r, slots)) :
    ∃ vs, extractValues tys args = Extracted.ok (vs, slots) := by
  simp only [into_callable_function_Pure_ctx_fallible, check_constant_Pure] at h
  cases hre : extractValues tys args with
  | panic m => rw [hre] at h; simp at h
  | ok p =>
    obtain ⟨vs, slots1⟩ := p
    rw [hre] at h
    simp only [Extracted.ok.injEq, Prod.mk.injEq] at h
    exact ⟨vs, by rw [h.2]⟩

/-- Closed form of the guard under the `Method` ABI with a non-empty
argument array. -/
theorem check_constant_Method_eq (ctx : NativeCallContext) (a0 : Dynamic)
    (rest : List Dynamic) :
    check_constant ABI.Method ctx (a0 :: rest)
      = if ((a0 :: rest).length = 3 ∧ ctx.fnName = FN_IDX_SET ∧ a0.readOnly = true)
          ∨ ((a0 :: rest).length = 2 ∧ ctx.fnName.startsWith FN_SET = true
              ∧ a0.readOnly = true)
        then some (RhaiError.ErrorNonPureMethodCallOnConstant ctx.fnName Position.none)
        else none := by
  simp only [check_constant]
  by_cases h3 : (a0 :: rest).length = 3
  · by_cases hc : ctx.fnName = FN_IDX_SET <;> by_cases hr : a0.readOnly = true <;>
      simp [h3, hc, hr]
  · by_cases h2 : (a0 :: rest).length = 2
    · by_cases hs : ctx.fnName.startsWith FN_SET = true <;>
        by_cases hr : a0.readOnly = true <;> simp [h3, h2, hs, hr]
    · have h3x : rest.length ≠ 2 := fun h => h3 (by simp [h])
      have h2x : rest.length ≠ 1 := fun h => h2 (by simp [h])
      simp [h3, h2, h3x, h2x]

/-! ### The claims -/

/-- Claim C1, corrected: for a fallible-return registered function the
exposed `return_type` Type Identity is that of the `RhaiResultOf<RET>`
wrapper — not of the inner success type `RET` (those two identities never
coincide); the infallible impls expose `RET` itself. -/
theorem C1_return_type_is_wrapper (markers : List Marker) (ret : Ty) :
    (metadata_fallible markers ret).return_type = Ty.resultOf ret ∧
    (metadata_fallible markers ret).return_type ≠ ret ∧
    (metadata_infallible markers ret).return_type = ret := by
  refine ⟨rfl, ?_, rfl⟩
  simpa [metadata_fallible] using resultOf_ne ret

/-- Counterexample to claim C1 as stated: for a fallible function with inner
return type `i64`, `return_type` is the identity of the `Result` wrapper and
differs from the identity of `i64`. -/
theorem C1_counterexample :
    (metadata_fallible [Marker.plain Ty.int] Ty.int).return_type
        = Ty.resultOf Ty.int ∧
    (metadata_fallible [Marker.plain Ty.int] Ty.int).return_type ≠ Ty.int := by
  decide

/-- Witness for C1: the wrapper/inner distinction evaluated at inner return
type `i64` with no parameters. -/
theorem C1_witness :
    (metadata_fallible [] Ty.int).return_type = Ty.resultOf Ty.int ∧
    (metadata_fallible [] Ty.int).return_type ≠ Ty.int ∧
    (metadata_infallible [] Ty.int).return_type = Ty.int :=
  C1_return_type_is_wrapper [] Ty.int

/-- Claim C2: under the `Method` convention with a non-empty argument array,
the guard returns the non-pure-method-call-on-constant error carrying the
call name and no position exactly when (a) the call is the index-assignment
name with 3 arguments and a read-only receiver, or (b) the call name has the
property-setter prefix with 2 arguments and a read-only receiver; any error
it returns has exactly that shape, and `Pure` calls always pass silently. -/
theorem C2_constant_guard (ctx : NativeCallContext) (a0 : Dynamic)
    (rest : List Dynamic) :
    (check_constant ABI.Method ctx (a0 :: rest)
        = some (RhaiError.ErrorNonPureMethodCallOnConstant ctx.fnName Position.none)
      ↔ ((a0 :: rest).length = 3 ∧ ctx.fnName = FN_IDX_SET ∧ a0.readOnly = true)
        ∨ ((a0 :: rest).length = 2 ∧ ctx.fnName.startsWith FN_SET = true
            ∧ a0.readOnly = true)) ∧
    (∀ e, check_constant ABI.Method ctx (a0 :: rest) = some e →
        e = RhaiError.ErrorNonPureMethodCallOnConstant ctx.fnName Position.none) ∧
    (∀ args, check_constant ABI.Pure ctx args = none) := by
  have hkey := check_constant_Method_eq ctx a0 rest
  refine ⟨?_, ?_, check_constant_Pure ctx⟩
  · rw [hkey]
    by_cases hcond : ((a0 :: rest).length = 3 ∧ ctx.fnName = FN_IDX_SET
          ∧ a0.readOnly = true)
        ∨ ((a0 :: rest).length = 2 ∧ ctx.fnName.startsWith FN_SET = true
            ∧ a0.readOnly = true)
    · rw [if_pos hcond]
      exact ⟨fun _ => hcond, fun _ => rfl⟩
    · rw [if_neg hcond]
      exact ⟨fun h => absurd h (by simp), fun h => absurd h hcond⟩
  · intro e he
    rw [hkey] at he
    by_cases hcond : ((a0 :: rest).length = 3 ∧ ctx.fnName = FN_IDX_SET
          ∧ a0.readOnly = true)
        ∨ ((a0 :: rest).length = 2 ∧ ctx.fnName.startsWith FN_SET = true
            ∧ a0.readOnly = true)
    · rw [if_pos hcond] at he
      exact (Option.some.injEq _ _ ▸ he).symm
    · rw [if_neg hcond] at he
      exact absurd he (by simp)

/-- Witness for C2: an index-assignment call with 3 arguments and a
read-only receiver is denied with the expected error value. -/
theorem C2_witness :
    check_constant ABI.Method ⟨"index$set$"⟩
        [⟨DynValue.vInt 1, true⟩, ⟨DynValue.vInt 0, false⟩, ⟨DynValue.vInt 2, false⟩]
      = some (RhaiError.ErrorNonPureMethodCallOnConstant "index$set$" Position.none) :=
  (C2_constant_guard ⟨"index$set$"⟩ ⟨DynValue.vInt 1, true⟩
      [⟨DynValue.vInt 0, false⟩, ⟨DynValue.vInt 2, false⟩]).1.mpr (by decide)

/-- Claim C3, corrected: a `Pure`-convention call does not leave the input
slots holding their prior values — successful consuming extraction replaces
every owned-target slot with the canonical empty value `Dynamic::UNIT`
(slots targeted as borrowed text keep their value, and slots beyond the
arity are untouched).  This holds for all four `Pure` variants. -/
theorem C3_pure_consumes_slots :
    (∀ tys f ctx args r slots,
        into_callable_function_Pure_plain tys f ctx args = Extracted.ok (r, slots) →
        slots = List.zipWith (fun t d => if t = Ty.strRef then d else Dynamic.UNIT)
            tys args ++ args.drop tys.length) ∧
    (∀ tys f ctx args r slots,
        into_callable_function_Pure_ctx tys f ctx args = Extracted.ok (r, slots) →
        slots = List.zipWith (fun t d => if t = Ty.strRef then d else Dynamic.UNIT)
            tys args ++ args.drop tys.length) ∧
    (∀ tys f ctx args r slots,
        into_callable_function_Pure_fallible tys f ctx args = Extracted.ok (r, slots) →
        slots = List.zipWith (fun t d => if t = Ty.strRef then d else Dynamic.UNIT)
            tys args ++ args.drop tys.length) ∧
    (∀ tys f ctx args r slots,
        into_callable_function_Pure_ctx_fallible tys f ctx args
            = Extracted.ok (r, slots) →
        slots = List.zipWith (fun t d => if t = Ty.strRef then d else Dynamic.UNIT)
            tys args ++ args.drop tys.length) := by
  refine ⟨?_, ?_, ?_, ?_⟩ <;> intro tys f ctx args r slots h
  · obtain ⟨vs, hre⟩ := Pure_plain_ok_extract tys f ctx args r slots h
    exact extractValues_slots tys args vs slots hre
  · obtain ⟨vs, hre⟩ := Pure_ctx_ok_extract tys f ctx args r slots h
    exact extractValues_slots tys args vs slots hre
  · obtain ⟨vs, hre⟩ := Pure_fallible_ok_extract tys f ctx args r slots h
    exact extractValues_slots tys args vs slots hre
  · obtain ⟨vs, hre⟩ := Pure_ctx_fallible_ok_extract tys f ctx args r slots h
    exact extractValues_slots tys args vs slots hre

/-- Counterexample to claim C3 as stated: a `Pure` call on an `i64` slot
succeeds but leaves the slot holding `Dynamic::UNIT`, not its prior value. -/
theorem C3_counterexample :
    into_callable_function_Pure_plain [Ty.int] (fun _ => DynValue.vInt 0) ⟨"neg"⟩
        [⟨DynValue.vInt 3, false⟩]
      = Extracted.ok (Except.ok (Dynamic.fromValue (DynValue.vInt 0)), [Dynamic.UNIT]) ∧
    Dynamic.UNIT ≠ (⟨DynValue.vInt 3, false⟩ : Dynamic) :=
  ⟨rfl, by decide⟩

/-- Witness for C3: the slot-state formula evaluated on a concrete
one-argument `Pure` call. -/
theorem C3_witness :
    [Dynamic.UNIT]
      = List.zipWith (fun t d => if t = Ty.strRef then d else Dynamic.UNIT)
          [Ty.int] [(⟨DynValue.vInt 3, false⟩ : Dynamic)]
        ++ ([(⟨DynValue.vInt 3, false⟩ : Dynamic)].drop [Ty.int].length) :=
  C3_pure_consumes_slots.1 [Ty.int] (fun _ => DynValue.vInt 0) ⟨"neg"⟩
    [⟨DynValue.vInt 3, false⟩] (Except.ok (Dynamic.fromValue (DynValue.vInt 0)))
    [Dynamic.UNIT] rfl

/-- Claim C4, corrected: a successful consuming extraction returns exactly
the slot's stored value and leaves the slot as the canonical empty
placeholder for every owned target (including the owned-text path) — but on
the special-cased borrowed-text (`&str`) path the slot keeps its value. -/
theorem C4_by_value_slot_state (T : Ty) (d : Dynamic) (v : DynValue) (d1 : Dynamic)
    (h : by_value T d = Extracted.ok (v, d1)) :
    v = d.value ∧ (T ≠ Ty.strRef → d1 = Dynamic.UNIT) ∧ (T = Ty.strRef → d1 = d) := by
  obtain ⟨h1, h2⟩ := by_value_ok_spec T d v d1 h
  refine ⟨h1, ?_, ?_⟩ <;> intro hT <;> simp [hT] at h2 <;> exact h2

/-- Counterexample to claim C4 as stated: consuming extraction at the
borrowed-text target leaves the slot holding the string, not the canonical
empty state. -/
theorem C4_counterexample :
    by_value Ty.strRef ⟨DynValue.vStr "a", false⟩
      = Extracted.ok (DynValue.vStr "a", ⟨DynValue.vStr "a", false⟩) ∧
    (⟨DynValue.vStr "a", false⟩ : Dynamic) ≠ Dynamic.UNIT :=
  ⟨rfl, by decide⟩

/-- Witness for C4: the slot-state statement evaluated on a concrete `i64`
extraction. -/
theorem C4_witness :
    DynValue.vInt 5 = (⟨DynValue.vInt 5, false⟩ : Dynamic).value ∧
    (Ty.int ≠ Ty.strRef → Dynamic.UNIT = Dynamic.UNIT) ∧
    (Ty.int = Ty.strRef → Dynamic.UNIT = (⟨DynValue.vInt 5, false⟩ : Dynamic)) :=
  C4_by_value_slot_state Ty.int ⟨DynValue.vInt 5, false⟩ (DynValue.vInt 5)
    Dynamic.UNIT rfl

/-- Claim C5, corrected: a runtime type mismatch inside extraction does not
produce a typed error — both extractors abort (panic); the extractor relies
on upstream arity/type validation instead of being defensively total. -/
theorem C5_mismatch_aborts (T : Ty) (d : Dynamic) :
    (by_value_accepts T d.value = false → ∃ m, by_value T d = Extracted.panic m) ∧
    (d.value.typeOf ≠ T → ∃ m, by_ref T d = Extracted.panic m) :=
  ⟨by_value_panic_of_mismatch T d, by_ref_panic_of_mismatch T d⟩

/-- Counterexample to claim C5 as stated: extracting `i64` from a `bool`
slot panics (`cast` / `expect("checked")`); no typed error is returned. -/
theorem C5_counterexample :
    by_value Ty.int ⟨DynValue.vBool true, false⟩ = Extracted.panic "cast" ∧
    by_ref Ty.int ⟨DynValue.vBool true, false⟩ = Extracted.panic "checked" :=
  ⟨rfl, rfl⟩

/-- Witness for C5: the abort outcome on a concrete mismatched extraction. -/
theorem C5_witness :
    ∃ m, by_value Ty.int ⟨DynValue.vBool true, false⟩ = Extracted.panic m :=
  (C5_mismatch_aborts Ty.int ⟨DynValue.vBool true, false⟩).1 (by decide)

/-- Claim C6: past the guard, every closure extracts parameters
left-to-right by index — the value and final state of position `i` come from
one `by_value` application to the declared type and argument at `i` — with
by-mutable-reference extraction used only for index 0 and only under the
`Method` convention; the call context is injected as the leading native
argument exactly in the context-taking variants; and the result of each of
the eight closures is a single application of the wrapped native function to
the extracted values, with no reordering, retrying or caching. -/
theorem C6_dispatch_shape :
    (∀ tys args vs slots, extractValues tys args = Extracted.ok (vs, slots) →
        vs.length = tys.length ∧
        ∀ i, i < tys.length →
          by_value (tys.getD i Ty.unit) (args.getD i Dynamic.UNIT)
            = Extracted.ok (vs.getD i DynValue.vUnit, slots.getD i Dynamic.UNIT)) ∧
    (∀ tys f ctx args vs slots,
        extractValues tys args = Extracted.ok (vs, slots) →
        into_callable_function_Pure_plain tys f ctx args
          = Extracted.ok (Except.ok (Dynamic.fromValue (f vs)), slots)) ∧
    (∀ tys f ctx args vs slots,
        extractValues tys args = Extracted.ok (vs, slots) →
        into_callable_function_Pure_ctx tys f ctx args
          = Extracted.ok (Except.ok (Dynamic.fromValue (f ctx vs)), slots)) ∧
    (∀ tys f ctx args vs slots,
        extractValues tys args = Extracted.ok (vs, slots) →
        into_callable_function_Pure_fallible tys f ctx args
          = Extracted.ok ((f vs).map Dynamic.fromValue, slots)) ∧
    (∀ tys f ctx args vs slots,
        extractValues tys args = Extracted.ok (vs, slots) →
        into_callable_function_Pure_ctx_fallible tys f ctx args
          = Extracted.ok ((f ctx vs).map Dynamic.fromValue, slots)) ∧
    (∀ t0 ts f ctx d0 ds v0 vs slots,
        check_constant ABI.Method ctx (d0 :: ds) = none →
        by_ref t0 d0 = Extracted.ok v0 →
        extractValues ts ds = Extracted.ok (vs, slots) →
        into_callable_function_Method_plain (t0 :: ts) f ctx (d0 :: ds)
          = Extracted.ok (Except.ok (Dynamic.fromValue (f (v0 :: vs)).2),
              ⟨(f (v0 :: vs)).1, d0.readOnly⟩ :: slots)) ∧
    (∀ t0 ts f ctx d0 ds v0 vs slots,
        check_constant ABI.Method ctx (d0 :: ds) = none →
        by_ref t0 d0 = Extracted.ok v0 →
        extractValues ts ds = Extracted.ok (vs, slots) →
        into_callable_function_Method_ctx (t0 :: ts) f ctx (d0 :: ds)
          = Extracted.ok (Except.ok (Dynamic.fromValue (f ctx (v0 :: vs)).2),
              ⟨(f ctx (v0 :: vs)).1, d0.readOnly⟩ :: slots)) ∧
    (∀ t0 ts f ctx d0 ds v0 vs slots,
        check_constant ABI.Method ctx (d0 :: ds) = none →
        by_ref t0 d0 = Extracted.ok v0 →
        extractValues ts ds = Extracted.ok (vs, slots) →
        into_callable_function_Method_fallible (t0 :: ts) f ctx (d0 :: ds)
          = Extracted.ok ((f (v0 :: vs)).2.map Dynamic.fromValue,
              ⟨(f (v0 :: vs)).1, d0.readOnly⟩ :: slots)) ∧
    (∀ t0 ts f ctx d0 ds v0 vs slots,
        check_constant ABI.Method ctx (d0 :: ds) = none →
        by_ref t0 d0 = Extracted.ok v0 →
        extractValues ts ds = Extracted.ok (vs, slots) →
        into_callable_function_Method_ctx_fallible (t0 :: ts) f ctx (d0 :: ds)
          = Extracted.ok ((f ctx (v0 :: vs)).2.map Dynamic.fromValue,
              ⟨(f ctx (v0 :: vs)).1, d0.readOnly⟩ :: slots)) :=
  ⟨fun tys args vs slots h =>
      ⟨(extractValues_length tys args vs slots h).1,
        extractValues_getD tys args vs slots h⟩,
    Pure_plain_eq, Pure_ctx_eq, Pure_fallible_eq, Pure_ctx_fallible_eq,
    Method_plain_eq, Method_ctx_eq, Method_fallible_eq, Method_ctx_fallible_eq⟩

/-- Witness for C6: the `Pure` plain dispatch equation evaluated on a
concrete two-argument call returning its first argument. -/
theorem C6_witness :
    into_callable_function_Pure_plain [Ty.int, Ty.int]
        (fun vs => vs.headD DynValue.vUnit) ⟨"add"⟩
        [⟨DynValue.vInt 3, false⟩, ⟨DynValue.vInt 4, false⟩]
      = Extracted.ok (Except.ok (Dynamic.fromValue (DynValue.vInt 3)),
          [Dynamic.UNIT, Dynamic.UNIT]) :=
  C6_dispatch_shape.2.1 [Ty.int, Ty.int] (fun vs => vs.headD DynValue.vUnit) ⟨"add"⟩
    [⟨DynValue.vInt 3, false⟩, ⟨DynValue.vInt 4, false⟩]
    [DynValue.vInt 3, DynValue.vInt 4] [Dynamic.UNIT, Dynamic.UNIT] rfl

/-- Claim C7: the fallible closures propagate a native error untouched (the
`Method` ones still performing the receiver write-back); the infallible
closures wrap the native return value with `Dynamic::from` and return it as
success; and every returned error is accounted for — infallible `Pure`
closures never return one, infallible `Method` closures return only the
guard's error (arguments untouched), and fallible closures return either the
guard's error or exactly the error of one native application to the
extracted values. -/
theorem C7_error_paths :
    (∀ tys f ctx args vs slots e,
        extractValues tys args = Extracted.ok (vs, slots) →
        f vs = Except.error e →
        into_callable_function_Pure_fallible tys f ctx args
          = Extracted.ok (Except.error e, slots)) ∧
    (∀ tys f ctx args vs slots e,
        extractValues tys args = Extracted.ok (vs, slots) →
        f ctx vs = Except.error e →
        into_callable_function_Pure_ctx_fallible tys f ctx args
          = Extracted.ok (Except.error e, slots)) ∧
    (∀ t0 ts f ctx d0 ds v0 vs slots e,
        check_constant ABI.Method ctx (d0 :: ds) = none →
        by_ref t0 d0 = Extracted.ok v0 →
        extractValues ts ds = Extracted.ok (vs, slots) →
        (f (v0 :: vs)).2 = Except.error e →
        into_callable_function_Method_fallible (t0 :: ts) f ctx (d0 :: ds)
          = Extracted.ok (Except.error e, ⟨(f (v0 :: vs)).1, d0.readOnly⟩ :: slots)) ∧
    (∀ t0 ts f ctx d0 ds v0 vs slots e,
        check_constant ABI.Method ctx (d0 :: ds) = none →
        by_ref t0 d0 = Extracted.ok v0 →
        extractValues ts ds = Extracted.ok (vs, slots) →
        (f ctx (v0 :: vs)).2 = Except.error e →
        into_callable_function_Method_ctx_fallible (t0 :: ts) f ctx (d0 :: ds)
          = Extracted.ok (Except.error e, ⟨(f ctx (v0 :: vs)).1, d0.readOnly⟩ :: slots)) ∧
    (∀ tys f ctx args vs slots,
        extractValues tys args = Extracted.ok (vs, slots) →
        into_callable_function_Pure_plain tys f ctx args
          = Extracted.ok (Except.ok (Dynamic.fromValue (f vs)), slots)) ∧
    (∀ tys f ctx args vs slots,
        extractValues tys args = Extracted.ok (vs, slots) →
        into_callable_function_Pure_ctx tys f ctx args
          = Extracted.ok (Except.ok (Dynamic.fromValue (f ctx vs)), slots)) ∧
    (∀ t0 ts f ctx d0 ds v0 vs slots,
        check_constant ABI.Method ctx (d0 :: ds) = none →
        by_ref t0 d0 = Extracted.ok v0 →
        extractValues ts ds = Extracted.ok (vs, slots) →
        into_callable_function_Method_plain (t0 :: ts) f ctx (d0 :: ds)
          = Extracted.ok (Except.ok (Dynamic.fromValue (f (v0 :: vs)).2),
              ⟨(f (v0 :: vs)).1, d0.readOnly⟩ :: slots)) ∧
    (∀ t0 ts f ctx d0 ds v0 vs slots,
        check_constant ABI.Method ctx (d0 :: ds) = none →
        by_ref t0 d0 = Extracted.ok v0 →
        extractValues ts ds = Extracted.ok (vs, slots) →
        into_callable_function_Method_ctx (t0 :: ts) f ctx (d0 :: ds)
          = Extracted.ok (Except.ok (Dynamic.fromValue (f ctx (v0 :: vs)).2),
              ⟨(f ctx (v0 :: vs)).1, d0.readOnly⟩ :: slots)) ∧
    (∀ tys f ctx args e slots,
        into_callable_function_Pure_plain tys f ctx args
            = Extracted.ok (Except.error e, slots) → False) ∧
    (∀ tys f ctx args e slots,
        into_callable_function_Pure_ctx tys f ctx args
            = Extracted.ok (Except.error e, slots) → False) ∧
    (∀ tys f ctx args e slots,
        into_callable_function_Method_plain tys f ctx args
            = Extracted.ok (Except.error e, slots) →
        check_constant ABI.Method ctx args = some e ∧ slots = args) ∧
    (∀ tys f ctx args e slots,
        into_callable_function_Method_ctx tys f ctx args
            = Extracted.ok (Except.error e, slots) →
        check_constant ABI.Method ctx args = some e ∧ slots = args) ∧
    (∀ tys f ctx args e slots,
        into_callable_function_Pure_fallible tys f ctx args
            = Extracted.ok (Except.error e, slots) →
        ∃ vs, extractValues tys args = Extracted.ok (vs, slots)
          ∧ f vs = Except.error e) ∧
    (∀ tys f ctx args e slots,
        into_callable_function_Pure_ctx_fallible tys f ctx args
            = Extracted.ok (Except.error e, slots) →
        ∃ vs, extractValues tys args = Extracted.ok (vs, slots)
          ∧ f ctx vs = Except.error e) ∧
    (∀ tys f ctx args e slots,
        into_callable_function_Method_fallible tys f ctx args
            = Extracted.ok (Except.error e, slots) →
        (check_constant ABI.Method ctx args = some e ∧ slots = args) ∨
        (check_constant ABI.Method ctx args = none ∧
          ∃ t0 ts d0 ds v0 vs slots1,
            tys = t0 :: ts ∧ args = d0 :: ds ∧
            by_ref t0 d0 = Extracted.ok v0 ∧
            extractValues ts ds = Extracted.ok (vs, slots1) ∧
            (f (v0 :: vs)).2 = Except.error e ∧
            slots = ⟨(f (v0 :: vs)).1, d0.readOnly⟩ :: slots1)) ∧
    (∀ tys f ctx args e slots,
        into_callable_function_Method_ctx_fallible tys f ctx args
            = Extracted.ok (Except.error e, slots) →
        (check_constant ABI.Method ctx args = some e ∧ slots = args) ∨
        (check_constant ABI.Method ctx args = none ∧
          ∃ t0 ts d0 ds v0 vs slots1,
            tys = t0 :: ts ∧ args = d0 :: ds ∧
            by_ref t0 d0 = Extracted.ok v0 ∧
            extractValues ts ds = Extracted.ok (vs, slots1) ∧
            (f ctx (v0 :: vs)).2 = Except.error e ∧
            slots = ⟨(f ctx (v0 :: vs)).1, d0.readOnly⟩ :: slots1)) := by
  refine ⟨?_, ?_, ?_, ?_, Pure_plain_eq, Pure_ctx_eq, Method_plain_eq, Method_ctx_eq,
    Pure_plain_no_error, Pure_ctx_no_error,
    Method_plain_error_spec, Method_ctx_error_spec,
    Pure_fallible_error_spec, Pure_ctx_fallible_error_spec,
    Method_fallible_error_spec, Method_ctx_fallible_error_spec⟩
  · intro tys f ctx args vs slots e hre hf
    rw [Pure_fallible_eq tys f ctx args vs slots hre, hf]
    rfl
  · intro tys f ctx args vs slots e hre hf
    rw [Pure_ctx_fallible_eq tys f ctx args vs slots hre, hf]
    rfl
  · intro t0 ts f ctx d0 ds v0 vs slots e hc hr he hf
    rw [Method_fallible_eq t0 ts f ctx d0 ds v0 vs slots hc hr he, hf]
    rfl
  · intro t0 ts f ctx d0 ds v0 vs slots e hc hr he hf
    rw [Method_ctx_fallible_eq t0 ts f ctx d0 ds v0 vs slots hc hr he, hf]
    rfl

/-- Witness for C7: a native error value propagated exactly through the
`Pure` fallible closure on a concrete call. -/
theorem C7_witness :
    into_callable_function_Pure_fallible [Ty.int]
        (fun _ => Except.error (RhaiError.native 7 Position.none)) ⟨"f"⟩
        [⟨DynValue.vInt 3, false⟩]
      = Extracted.ok (Except.error (RhaiError.native 7 Position.none), [Dynamic.UNIT]) :=
  C7_error_paths.1 [Ty.int]
    (fun _ => Except.error (RhaiError.native 7 Position.none)) ⟨"f"⟩
    [⟨DynValue.vInt 3, false⟩] [DynValue.vInt 3] [Dynamic.UNIT]
    (RhaiError.native 7 Position.none) rfl rfl

/-- Claim C8: the ordered parameter Type Identities exposed by `param_types`
are independent of the calling convention — the `Method` registration over a
mutable-by-reference first parameter of type `A` reports exactly the same
identities (and the same first identity `A`) as the `Pure` registration, for
both the infallible and the fallible impls. -/
theorem C8_param_types_convention_independent (tys : List Ty) (t0 ret : Ty)
    (ts : List Ty) :
    (metadata_infallible (methodMarkers tys) ret).param_types
      = (metadata_infallible (pureMarkers tys) ret).param_types ∧
    (metadata_fallible (methodMarkers tys) ret).param_types
      = (metadata_fallible (pureMarkers tys) ret).param_types ∧
    (metadata_infallible (methodMarkers tys) ret).param_types = tys ∧
    (metadata_infallible (methodMarkers (t0 :: ts)) ret).param_types.headD Ty.unit
      = t0 ∧
    (metadata_infallible (pureMarkers (t0 :: ts)) ret).param_types.headD Ty.unit
      = t0 := by
  refine ⟨?_, ?_, ?_, ?_, ?_⟩ <;> cases tys <;>
    simp [metadata_infallible, metadata_fallible, methodMarkers, pureMarkers,
      Marker.parTy, parTy_map_plain, parTy_comp_plain_map]

/-- Witness for C8: convention-independence of `param_types` evaluated on a
concrete one-parameter signature. -/
theorem C8_witness :
    (metadata_infallible (methodMarkers [Ty.int]) Ty.unit).param_types
      = (metadata_infallible (pureMarkers [Ty.int]) Ty.unit).param_types ∧
    (metadata_fallible (methodMarkers [Ty.int]) Ty.unit).param_types
      = (metadata_fallible (pureMarkers [Ty.int]) Ty.unit).param_types ∧
    (metadata_infallible (methodMarkers [Ty.int]) Ty.unit).param_types = [Ty.int] ∧
    (metadata_infallible (methodMarkers (Ty.bool :: [])) Ty.unit).param_types.headD
        Ty.unit = Ty.bool ∧
    (metadata_infallible (pureMarkers (Ty.bool :: [])) Ty.unit).param_types.headD
        Ty.unit = Ty.bool :=
  C8_param_types_convention_independent [Ty.int] Ty.bool Ty.unit []

/-- Claim C9: a call rejected by the constant-safety guard returns the error
before any argument extraction — the argument array is returned exactly as
it was and the native function is never consulted (the equation holds for
every native function), across all four `Method` variants; `Pure` calls are
never rejected by the guard at all. -/
theorem C9_guard_rejection_is_first :
    (∀ ctx args, check_constant ABI.Pure ctx args = none) ∧
    (∀ tys f ctx args e, check_constant ABI.Method ctx args = some e →
        into_callable_function_Method_plain tys f ctx args
          = Extracted.ok (Except.error e, args)) ∧
    (∀ tys f ctx args e, check_constant ABI.Method ctx args = some e →
        into_callable_function_Method_ctx tys f ctx args
          = Extracted.ok (Except.error e, args)) ∧
    (∀ tys f ctx args e, check_constant ABI.Method ctx args = some e →
        into_callable_function_Method_fallible tys f ctx args
          = Extracted.ok (Except.error e, args)) ∧
    (∀ tys f ctx args e, check_constant ABI.Method ctx args = some e →
        into_callable_function_Method_ctx_fallible tys f ctx args
          = Extracted.ok (Except.error e, args)) :=
  ⟨check_constant_Pure, Method_plain_reject, Method_ctx_reject,
    Method_fallible_reject, Method_ctx_fallible_reject⟩

/-- Witness for C9: a concrete guard-rejected index-assignment call returns
the guard error with the three argument slots exactly as they were. -/
theorem C9_witness :
    into_callable_function_Method_plain [Ty.int, Ty.int, Ty.int]
        (fun _ => (DynValue.vUnit, DynValue.vUnit)) ⟨"index$set$"⟩
        [⟨DynValue.vInt 1, true⟩, ⟨DynValue.vInt 0, false⟩, ⟨DynValue.vInt 2, false⟩]
      = Extracted.ok
          (Except.error (RhaiError.ErrorNonPureMethodCallOnConstant "index$set$"
            Position.none),
          [⟨DynValue.vInt 1, true⟩, ⟨DynValue.vInt 0, false⟩,
            ⟨DynValue.vInt 2, false⟩]) :=
  C9_guard_rejection_is_first.2.1 [Ty.int, Ty.int, Ty.int]
    (fun _ => (DynValue.vUnit, DynValue.vUnit)) ⟨"index$set$"⟩
    [⟨DynValue.vInt 1, true⟩, ⟨DynValue.vInt 0, false⟩, ⟨DynValue.vInt 2, false⟩]
    (RhaiError.ErrorNonPureMethodCallOnConstant "index$set$" Position.none)
    (by decide)

/-- Claim C10: `def_register!` produces `Method`-convention instantiations
only for arity at least 1; arity 0 is generated solely as `Pure`; and every
arity from 1 up to the maximum of 20 gets both a `Pure` and a `Method`
instantiation (and no arity above 20 exists). -/
theorem C10_method_arity_at_least_one :
    ((ABI.Pure, 0) ∈ registeredVariants) ∧
    ((ABI.Method, 0) ∉ registeredVariants) ∧
    (∀ p, p ∈ registeredVariants → p.2 ≤ 20 ∧ (p.1 = ABI.Method → 1 ≤ p.2)) ∧
    (∀ n, n ∈ List.range 21 → 1 ≤ n →
        (ABI.Pure, n) ∈ registeredVariants ∧ (ABI.Method, n) ∈ registeredVariants) := by
  decide

/-- Witness for C10: both conventions exist at the maximum arity 20. -/
theorem C10_witness :
    (ABI.Pure, 20) ∈ registeredVariants ∧ (ABI.Method, 20) ∈ registeredVariants :=
  C10_method_arity_at_least_one.2.2.2 20 (by decide) (by decide)

end Rhai
